import Mathlib

/-!
# Verification of `iwopy.core.function_list.OptFunctionList`

A shallow embedding of `src/iwopy/core/function_list.py`.

Modelling conventions:
* Variable values are `Int` (integer namespace) and `Rat` (float namespace).
* Result-vector entries are `Option Rat`; `none` embeds the sentinel
  `numpy.nan` with which every result buffer is pre-filled.
* A sub-function (`OptFunction`, the external base class) is modelled as a
  record carrying exactly the attributes the composer reads plus its
  evaluation and derivative operations as Lean functions.  The opaque
  `problem_results` pass-through argument carries no information for the
  composer and is absorbed into the function fields.
* Problem identity (Python `is`) is modelled by a `Nat` token.
* numpy fancy indexing `v[l]` with an index list is `l.map (v.getD · default)`;
  slicing `v[a:b]` is `(v.drop a).take (b - a)`; slice assignment
  `v[i0:i1] = out` is `setSlice`.
-/

namespace Iwopy

/-- The two shapes a stored index mapping can take in the source:
`np.s_[a : b]` (a slice object) or a plain Python list of positions. -/
inductive VarMapping where
  | range (start stop : Nat)
  | explicit (idx : List Nat)
deriving DecidableEq, Repr

/-- `True` iff the mapping is the slice form `np.s_[a : b]`. -/
def VarMapping.isRange : VarMapping → Bool
  | .range _ _ => true
  | .explicit _ => false

/-- The positions a mapping denotes, in order.  Used to embed
`list(self.func_vars_float[fi])` in `ana_deriv`; for the slice form it is
the index run the slice denotes (that branch is unreachable, see
`getv_isRange_false`). -/
def VarMapping.toIdxList : VarMapping → List Nat
  | .range a b => List.range' a (b - a)
  | .explicit l => l

/-- numpy indexing of a vector by a mapping: `v[mapping]`. -/
def applyMapping [Inhabited α] : VarMapping → List α → List α
  | .range a b, v => (v.drop a).take (b - a)
  | .explicit l, v => l.map (fun i => v.getD i default)

/-- The attributes and operations of an added function that
`OptFunctionList` consumes (the external `iwopy.core.OptFunction`
boundary). -/
structure OptFunction where
  name : String
  problem : Nat
  initialized : Bool
  component_names : List String
  n_components : Nat
  var_names_int : List String
  var_names_float : List String
  calc_individual : List Int → List Rat → List (Option Rat)
  ana_deriv : List Int → List Rat → Nat → List Int → List (Option Rat)

instance : Inhabited OptFunction :=
  ⟨⟨"", 0, false, [], 0, [], [], fun _ _ => [], fun _ _ _ _ => []⟩⟩

/-- The composer state: the registration-phase fields of
`OptFunctionList.__init__` plus the `initialized` flag of the base class. -/
structure OptFunctionList where
  problem : Nat
  name : String
  functions : List OptFunction
  cnames : List String
  initialized : Bool

/-- The error raised by `append`, carrying the identifying data that the
source interpolates into the `ValueError` message. -/
inductive AppendError where
  | afterInit (listName funcName : String)
  | problemMismatch (listName funcName : String) (listProblem funcProblem : Nat)
deriving DecidableEq, Repr

/-- `OptFunctionList.append`: reject after initialization, reject a problem
mismatch, otherwise extend the function list and the component-name list. -/
def OptFunctionList.append (fl : OptFunctionList) (f : OptFunction) :
    Except AppendError OptFunctionList :=
  if fl.initialized then
    .error (.afterInit fl.name f.name)
  else if f.problem ≠ fl.problem then
    .error (.problemMismatch fl.name f.name fl.problem f.problem)
  else
    .ok { fl with
          functions := fl.functions ++ [f],
          cnames := fl.cnames ++ f.component_names }

/-- Helper for `dedupFirst`: keep the elements not yet seen, first
occurrence first. -/
def dedupFirstAux (seen : List String) : List String → List String
  | [] => []
  | x :: xs =>
    if x ∈ seen then dedupFirstAux seen xs
    else x :: dedupFirstAux (x :: seen) xs

/-- `list(dict.fromkeys(l))`: de-duplication keeping the first occurrence
of each element, preserving order. -/
def dedupFirst (l : List String) : List String := dedupFirstAux [] l

/-- The inner helper `getv` of `OptFunctionList.initialize`:
positions of `fvnames` in the registry `vnames`, collapsed to the slice
`np.s_[l[0] : l[-1]]` when `list(range(l[0], l[-1])) == l`, else kept as
the explicit list ( `[]` when `fvnames` is empty). -/
def getv (vnames fvnames : List String) : VarMapping :=
  match fvnames.map (fun v => vnames.indexOf v) with
  | [] => .explicit []
  | x :: xs =>
    if List.range' x ((x :: xs).getLastD 0 - x) = x :: xs then
      .range x ((x :: xs).getLastD 0)
    else
      .explicit (x :: xs)

/-- `self._vnamesi` as built by `initialize`: concatenation of the
sub-functions' integer variable names, first-seen de-duplicated. -/
def OptFunctionList.vnamesi (fl : OptFunctionList) : List String :=
  dedupFirst (fl.functions.map (fun f => f.var_names_int)).flatten

/-- `self._vnamesf` as built by `initialize`. -/
def OptFunctionList.vnamesf (fl : OptFunctionList) : List String :=
  dedupFirst (fl.functions.map (fun f => f.var_names_float)).flatten

/-- `self.sizes` as built by `initialize`: one `f.n_components()` per
added function, in registration order. -/
def OptFunctionList.sizes (fl : OptFunctionList) : List Nat :=
  fl.functions.map (fun f => f.n_components)

/-- `self.func_vars_int` as built by `initialize`. -/
def OptFunctionList.func_vars_int (fl : OptFunctionList) : List VarMapping :=
  fl.functions.map (fun f => getv fl.vnamesi f.var_names_int)

/-- `self.func_vars_float` as built by `initialize`. -/
def OptFunctionList.func_vars_float (fl : OptFunctionList) : List VarMapping :=
  fl.functions.map (fun f => getv fl.vnamesf f.var_names_float)

/-- `OptFunctionList.n_components`: `sum(self.sizes)`. -/
def OptFunctionList.n_components (fl : OptFunctionList) : Nat :=
  fl.sizes.sum

/-- `OptFunctionList.n_functions`. -/
def OptFunctionList.n_functions (fl : OptFunctionList) : Nat :=
  fl.functions.length

/-- numpy slice assignment `buf[i0 : i0+len] = vals`. -/
def setSlice (buf : List α) (i0 len : Nat) (vals : List α) : List α :=
  buf.take i0 ++ vals.take len ++ buf.drop (i0 + len)

/-- The loop of `split_individual`: `out.append(data[i0:i1])`. -/
def splitLoop (sizes : List Nat) (i0 : Nat) (data : List α) : List (List α) :=
  match sizes with
  | [] => []
  | s :: rest => ((data.drop i0).take s) :: splitLoop rest (i0 + s) data

/-- `OptFunctionList.split_individual`. -/
def OptFunctionList.split_individual (fl : OptFunctionList) (data : List α) :
    List (List α) :=
  splitLoop fl.sizes 0 data

/-- The loop of `split_population`: `out.append(data[:, i0:i1])`, rows of a
two-axis array modelled as a list of row lists. -/
def splitPopLoop (sizes : List Nat) (i0 : Nat) (data : List (List α)) :
    List (List (List α)) :=
  match sizes with
  | [] => []
  | s :: rest =>
    (data.map (fun row => (row.drop i0).take s)) :: splitPopLoop rest (i0 + s) data

/-- `OptFunctionList.split_population`. -/
def OptFunctionList.split_population (fl : OptFunctionList)
    (data : List (List α)) : List (List (List α)) :=
  splitPopLoop fl.sizes 0 data

/-- The positionally aligned data the evaluation loops iterate over:
`(f, func_vars_int[fi], func_vars_float[fi], sizes[fi])` for each `fi`. -/
def OptFunctionList.quads (fl : OptFunctionList) :
    List (OptFunction × VarMapping × VarMapping × Nat) :=
  fl.functions.map (fun f =>
    (f, getv fl.vnamesi f.var_names_int, getv fl.vnamesf f.var_names_float,
      f.n_components))

/-- The loop of `calc_individual`: slice the global variable vectors with
the precomputed mappings, delegate, and assign the result into
`values[i0:i1]`. -/
def calcIndLoop (quads : List (OptFunction × VarMapping × VarMapping × Nat))
    (i0 : Nat) (vi : List Int) (vf : List Rat) (buf : List (Option Rat)) :
    List (Option Rat) :=
  match quads with
  | [] => buf
  | (f, mi, mf, s) :: rest =>
    calcIndLoop rest (i0 + s) vi vf
      (setSlice buf i0 s (f.calc_individual (applyMapping mi vi) (applyMapping mf vf)))

/-- `OptFunctionList.calc_individual`: a length-`n_components()` buffer of
`numpy.nan`, overwritten slice by slice in registration order. -/
def OptFunctionList.calc_individual (fl : OptFunctionList) (vi : List Int)
    (vf : List Rat) : List (Option Rat) :=
  calcIndLoop fl.quads 0 vi vf (List.replicate fl.n_components none)

/-- The first loop of `ana_deriv`: partition the requested components (all
components when `components is None`) into per-function buckets by the
ledger's offset ranges.  Requested indices are Python ints, so `Int`. -/
def cmpntsLoop (sizes : List Nat) (i0 : Nat) (components : Option (List Int)) :
    List (List Int) :=
  match sizes with
  | [] => []
  | s :: rest =>
    (match components with
     | none => (List.range' i0 s).map Int.ofNat
     | some cs => cs.filter (fun c => decide ((i0 : Int) ≤ c ∧ c < (i0 : Int) + (s : Int))))
    :: cmpntsLoop rest (i0 + s) components

/-- The second loop of `ana_deriv`: when the bucket is non-empty and `var`
is in the function's float mapping, translate `var` to its local rank and
assign the delegated derivative into `deriv[c0:c1]`; the bucket itself is
passed through unchanged. -/
def anaLoop (quads : List (OptFunction × VarMapping × VarMapping × List Int))
    (c0 : Nat) (vi : List Int) (vf : List Rat) (var : Nat)
    (buf : List (Option Rat)) : List (Option Rat) :=
  match quads with
  | [] => buf
  | (f, mi, mf, cs) :: rest =>
    anaLoop rest (c0 + cs.length) vi vf var
      (if c0 < c0 + cs.length ∧ var ∈ mf.toIdxList then
        setSlice buf c0 cs.length
          (f.ana_deriv (applyMapping mi vi) (applyMapping mf vf)
            (mf.toIdxList.indexOf var) cs)
      else buf)

/-- The quads for `ana_deriv`: functions with their mappings and their
precomputed component buckets. -/
def OptFunctionList.anaQuads (fl : OptFunctionList)
    (components : Option (List Int)) :
    List (OptFunction × VarMapping × VarMapping × List Int) :=
  List.zipWith
    (fun f cs =>
      (f, getv fl.vnamesi f.var_names_int, getv fl.vnamesf f.var_names_float, cs))
    fl.functions (cmpntsLoop fl.sizes 0 components)

/-- `OptFunctionList.ana_deriv`: buffer of `len(components)` (total when
`None`) sentinels, then the delegation loop. -/
def OptFunctionList.ana_deriv (fl : OptFunctionList) (vi : List Int)
    (vf : List Rat) (var : Nat) (components : Option (List Int)) :
    List (Option Rat) :=
  let n := match components with
    | some cs => cs.length
    | none => fl.n_components
  anaLoop (fl.anaQuads components) 0 vi vf var (List.replicate n none)

/-- The vector a sub-function contributes in `calc_individual`: its own
individual evaluation on its sliced local variable vectors. -/
def calcOut (vi : List Int) (vf : List Rat)
    (q : OptFunction × VarMapping × VarMapping × Nat) : List (Option Rat) :=
  q.1.calc_individual (applyMapping q.2.1 vi) (applyMapping q.2.2.1 vf)

/-- The slice a sub-function contributes to the `ana_deriv` output: its
delegated derivative when its bucket is non-empty and it owns `var`,
otherwise the untouched sentinel fill of its bucket's width. -/
def anaPiece (vi : List Int) (vf : List Rat) (var : Nat)
    (q : OptFunction × VarMapping × VarMapping × List Int) : List (Option Rat) :=
  if 0 < q.2.2.2.length ∧ var ∈ q.2.2.1.toIdxList then
    q.1.ana_deriv (applyMapping q.2.1 vi) (applyMapping q.2.2.1 vf)
      (q.2.2.1.toIdxList.indexOf var) q.2.2.2
  else List.replicate q.2.2.2.length none

/-! ## Concrete instances used in the example-based theorems -/

/-- Sub-function A of the spec's worked example: one component, float
variables `x, z` (in that local order). -/
def exA : OptFunction :=
  { name := "A", problem := 0, initialized := true,
    component_names := ["a0"], n_components := 1,
    var_names_int := [], var_names_float := ["x", "z"],
    calc_individual := fun _ vf => [some (vf.getD 1 0)],
    ana_deriv := fun _ _ _ cs => cs.map (fun c => some ((c : Rat))) }

/-- Sub-function B of the spec's worked example: two components, float
variable `y` only. -/
def exB : OptFunction :=
  { name := "B", problem := 0, initialized := true,
    component_names := ["b0", "b1"], n_components := 2,
    var_names_int := [], var_names_float := ["y"],
    calc_individual := fun _ vf => [some (vf.getD 0 0), some (vf.getD 0 0)],
    ana_deriv := fun _ _ _ cs => cs.map (fun c => some ((c : Rat))) }

/-- The two-sub-function composer of the worked example, as it stands
after `initialize()`. -/
def exFL : OptFunctionList :=
  { problem := 0, name := "L", functions := [exA, exB],
    cnames := ["a0", "b0", "b1"], initialized := true }

/-- A sub-function that echoes the component indices it is asked to
differentiate, making the delegated request observable in the output. -/
def echoF (nm : String) (nc : Nat) : OptFunction :=
  { name := nm, problem := 0, initialized := true,
    component_names := [], n_components := nc,
    var_names_int := [], var_names_float := ["u"],
    calc_individual := fun _ _ => [],
    ana_deriv := fun _ _ _ cs => cs.map (fun c => some ((c : Rat))) }

/-- A three-sub-function composer with component boundaries
`[0,1), [1,3), [3,5)`, every sub-function depending on the single float
variable `u` (registry position 0). -/
def exFL3 : OptFunctionList :=
  { problem := 0, name := "L3",
    functions := [echoF "F0" 1, echoF "F1" 2, echoF "F2" 2],
    cnames := [], initialized := true }

/-- The float-value assignment of the spec's example: x=10, y=20, z=30. -/
def exSigma : String → Rat :=
  fun n => if n = "x" then 10 else if n = "y" then 20 else 30

/-- An empty, not-yet-initialized composer over problem 0. -/
def exFLraw : OptFunctionList :=
  { problem := 0, name := "L", functions := [], cnames := [],
    initialized := false }

/-- A sub-function owned by a different problem (token 1). -/
def exFbad : OptFunction := { echoF "G" 1 with problem := 1 }

/-! ## The range-collapse guard of `getv` is unsatisfiable -/

/-- `list(range(l[0], l[-1]))` has last element `l[-1] - 1` and length
`l[-1] - l[0]`, so it can never equal a nonempty `l` ending in `l[-1]`. -/
theorem range'_getLastD_ne (x : Nat) (xs : List Nat) :
    List.range' x ((x :: xs).getLastD 0 - x) ≠ x :: xs := by
  intro h
  have hlen : (x :: xs).getLastD 0 - x = xs.length + 1 := by
    have h2 := congrArg List.length h
    simpa using h2
  obtain ⟨m, hm⟩ : ∃ m, (x :: xs).getLastD 0 - x = m + 1 :=
    ⟨xs.length, by omega⟩
  have hcat : List.range' x ((x :: xs).getLastD 0 - x) =
      List.range' x m ++ [x + m] := by
    rw [hm, List.range'_concat]; simp
  have hlast : (List.range' x ((x :: xs).getLastD 0 - x)).getLastD 0 = x + m := by
    rw [hcat]; exact List.getLastD_concat ..
  rw [h] at hlast
  omega

/-- `getv` always takes the explicit-list branch: the stored mapping is
the list of registry positions of the declared names. -/
theorem getv_eq_explicit (vnames fvnames : List String) :
    getv vnames fvnames =
      VarMapping.explicit (fvnames.map (fun v => vnames.indexOf v)) := by
  unfold getv
  rcases h : fvnames.map (fun v => vnames.indexOf v) with _ | ⟨x, xs⟩
  · rfl
  · have hne := range'_getLastD_ne x xs
    rw [List.getLastD_eq_getLast?] at hne
    simp [hne]

/-- The slice form is never produced. -/
theorem getv_isRange_false (vnames fvnames : List String) :
    (getv vnames fvnames).isRange = false := by
  rw [getv_eq_explicit]; rfl

/-! ## `dedupFirst` (i.e. `list(dict.fromkeys(...))`) facts -/

theorem dedupFirstAux_sublist :
    ∀ (l seen : List String), (dedupFirstAux seen l).Sublist l := by
  intro l
  induction l with
  | nil => intro seen; simp [dedupFirstAux]
  | cons x xs ih =>
    intro seen
    by_cases hx : x ∈ seen
    · rw [show dedupFirstAux seen (x :: xs) = dedupFirstAux seen xs by
        simp [dedupFirstAux, hx]]
      exact (ih seen).trans (List.sublist_cons_self x xs)
    · rw [show dedupFirstAux seen (x :: xs) = x :: dedupFirstAux (x :: seen) xs by
        simp [dedupFirstAux, hx]]
      exact (ih (x :: seen)).cons₂ x

theorem mem_dedupFirstAux {a : String} :
    ∀ (l seen : List String),
      a ∈ dedupFirstAux seen l ↔ (a ∈ l ∧ a ∉ seen) := by
  intro l
  induction l with
  | nil => intro seen; simp [dedupFirstAux]
  | cons x xs ih =>
    intro seen
    by_cases hx : x ∈ seen
    · rw [show dedupFirstAux seen (x :: xs) = dedupFirstAux seen xs by
        simp [dedupFirstAux, hx]]
      rw [ih seen]
      by_cases hax : a = x
      · subst hax; simp [hx]
      · simp [hax]
    · rw [show dedupFirstAux seen (x :: xs) = x :: dedupFirstAux (x :: seen) xs by
        simp [dedupFirstAux, hx]]
      rw [List.mem_cons, ih (x :: seen)]
      by_cases hax : a = x
      · subst hax; simp [hx]
      · simp [hax]

theorem dedupFirstAux_nodup :
    ∀ (l seen : List String), (dedupFirstAux seen l).Nodup := by
  intro l
  induction l with
  | nil => intro seen; simp [dedupFirstAux]
  | cons x xs ih =>
    intro seen
    by_cases hx : x ∈ seen
    · rw [show dedupFirstAux seen (x :: xs) = dedupFirstAux seen xs by
        simp [dedupFirstAux, hx]]
      exact ih seen
    · rw [show dedupFirstAux seen (x :: xs) = x :: dedupFirstAux (x :: seen) xs by
        simp [dedupFirstAux, hx]]
      refine List.Nodup.cons ?_ (ih (x :: seen))
      intro hmem
      rw [mem_dedupFirstAux] at hmem
      exact hmem.2 (List.mem_cons_self x seen)

theorem dedupFirst_sublist (l : List String) : (dedupFirst l).Sublist l :=
  dedupFirstAux_sublist l []

theorem mem_dedupFirst {a : String} {l : List String} :
    a ∈ dedupFirst l ↔ a ∈ l := by
  rw [dedupFirst, mem_dedupFirstAux]
  simp

theorem dedupFirst_nodup (l : List String) : (dedupFirst l).Nodup :=
  dedupFirstAux_nodup l []

/-! ## `setSlice` and the `calc_individual` loop -/

theorem setSlice_append (A Z out : List α) (s : Nat) (hout : out.length = s) :
    setSlice (A ++ Z) A.length s out = A ++ out ++ Z.drop s := by
  subst hout
  unfold setSlice
  rw [List.take_left, List.take_length, ← List.drop_drop, List.drop_left]


theorem calcIndLoop_eq (vi : List Int) (vf : List Rat) :
    ∀ (quads : List (OptFunction × VarMapping × VarMapping × Nat))
      (A Z : List (Option Rat)),
      (∀ q ∈ quads, (calcOut vi vf q).length = q.2.2.2) →
      Z.length = (quads.map (fun q => q.2.2.2)).sum →
      calcIndLoop quads A.length vi vf (A ++ Z) =
        A ++ (quads.map (calcOut vi vf)).flatten := by
  intro quads
  induction quads with
  | nil =>
    intro A Z _ hZ
    simp at hZ
    subst hZ
    simp [calcIndLoop]
  | cons q rest ih =>
    obtain ⟨f, mi, mf, s⟩ := q
    intro A Z hlen hZ
    rw [calcIndLoop]
    have hout : (calcOut vi vf (f, mi, mf, s)).length = s := hlen _ (by simp)
    have hset : setSlice (A ++ Z) A.length s
        (f.calc_individual (applyMapping mi vi) (applyMapping mf vf)) =
        A ++ calcOut vi vf (f, mi, mf, s) ++ Z.drop s :=
      setSlice_append A Z _ s hout
    rw [hset]
    have hAlen : (A ++ calcOut vi vf (f, mi, mf, s)).length = A.length + s := by
      simp [hout]
    have hihZ : (Z.drop s).length = (rest.map (fun q => q.2.2.2)).sum := by
      rw [List.map_cons, List.sum_cons] at hZ
      simp [List.length_drop, hZ]
    have hrec := ih (A ++ calcOut vi vf (f, mi, mf, s)) (Z.drop s)
      (fun q hq => hlen q (by simp [hq])) hihZ
    rw [hAlen] at hrec
    rw [hrec]
    simp [List.append_assoc]

/-! ## The splitting loops -/

theorem splitLoop_flatten (data : List α) :
    ∀ (sizes : List Nat) (i0 : Nat),
      (splitLoop sizes i0 data).flatten = (data.drop i0).take sizes.sum := by
  intro sizes
  induction sizes with
  | nil => intro i0; simp [splitLoop]
  | cons s rest ih =>
    intro i0
    rw [splitLoop]
    simp only [List.flatten_cons, ih, List.sum_cons]
    rw [List.take_add, List.drop_drop]

theorem splitLoop_lengths (data : List α) :
    ∀ (sizes : List Nat) (i0 : Nat), i0 + sizes.sum ≤ data.length →
      (splitLoop sizes i0 data).map List.length = sizes := by
  intro sizes
  induction sizes with
  | nil => intro i0 _; rfl
  | cons s rest ih =>
    intro i0 h
    rw [List.sum_cons] at h
    rw [splitLoop, List.map_cons]
    have h1 : ((data.drop i0).take s).length = s := by
      simp only [List.length_take, List.length_drop]
      omega
    rw [h1, ih (i0 + s) (by omega)]

theorem splitPopLoop_row (data : List (List α)) (k : Nat) (hk : k < data.length) :
    ∀ (sizes : List Nat) (i0 : Nat),
      (splitPopLoop sizes i0 data).map (fun p => p.getD k []) =
        splitLoop sizes i0 (data.getD k []) := by
  intro sizes
  induction sizes with
  | nil => intro i0; rfl
  | cons s rest ih =>
    intro i0
    rw [splitPopLoop, splitLoop, List.map_cons, ih]
    congr 1
    rw [List.getD_eq_get?, List.get?_map, List.get?_eq_get hk,
      List.getD_eq_get?, List.get?_eq_get hk]
    rfl

/-! ## The `ana_deriv` loops -/


theorem anaLoop_no_write (vi : List Int) (vf : List Rat) (var : Nat) :
    ∀ (quads : List (OptFunction × VarMapping × VarMapping × List Int))
      (c0 : Nat) (buf : List (Option Rat)),
      (∀ q ∈ quads, var ∉ q.2.2.1.toIdxList) →
      anaLoop quads c0 vi vf var buf = buf := by
  intro quads
  induction quads with
  | nil => intro c0 buf _; rfl
  | cons q rest ih =>
    obtain ⟨f, mi, mf, cs⟩ := q
    intro c0 buf h
    rw [anaLoop]
    have hmf : var ∉ mf.toIdxList := h (f, mi, mf, cs) (List.mem_cons_self _ _)
    rw [if_neg (fun hand => hmf hand.2)]
    exact ih _ _ (fun q hq => h q (by simp [hq]))

theorem anaLoop_append (vi : List Int) (vf : List Rat) (var : Nat) :
    ∀ (q1 q2 : List (OptFunction × VarMapping × VarMapping × List Int))
      (c0 : Nat) (buf : List (Option Rat)),
      anaLoop (q1 ++ q2) c0 vi vf var buf =
        anaLoop q2 (c0 + (q1.map (fun q => q.2.2.2.length)).sum) vi vf var
          (anaLoop q1 c0 vi vf var buf) := by
  intro q1
  induction q1 with
  | nil => intro q2 c0 buf; simp [anaLoop]
  | cons q rest ih =>
    obtain ⟨f, mi, mf, cs⟩ := q
    intro q2 c0 buf
    rw [List.cons_append, anaLoop, ih]
    conv_rhs => rw [anaLoop]
    simp only [List.map_cons, List.sum_cons, Nat.add_assoc]

theorem anaLoop_eq (vi : List Int) (vf : List Rat) (var : Nat) :
    ∀ (quads : List (OptFunction × VarMapping × VarMapping × List Int))
      (A : List (Option Rat)) (m : Nat),
      (∀ q ∈ quads, (anaPiece vi vf var q).length = q.2.2.2.length) →
      (quads.map (fun q => q.2.2.2.length)).sum ≤ m →
      anaLoop quads A.length vi vf var (A ++ List.replicate m none) =
        A ++ (quads.map (anaPiece vi vf var)).flatten ++
          List.replicate (m - (quads.map (fun q => q.2.2.2.length)).sum) none := by
  intro quads
  induction quads with
  | nil =>
    intro A m _ _
    simp [anaLoop]
  | cons q rest ih =>
    obtain ⟨f, mi, mf, cs⟩ := q
    intro A m hlen hm
    simp only [List.map_cons, List.sum_cons] at hm
    rw [anaLoop]
    by_cases hc : 0 < cs.length ∧ var ∈ mf.toIdxList
    · rw [if_pos ⟨by omega, hc.2⟩]
      have hpe : anaPiece vi vf var (f, mi, mf, cs) =
          f.ana_deriv (applyMapping mi vi) (applyMapping mf vf)
            (mf.toIdxList.indexOf var) cs := by
        rw [anaPiece, if_pos hc]
      have hout : (f.ana_deriv (applyMapping mi vi) (applyMapping mf vf)
          (mf.toIdxList.indexOf var) cs).length = cs.length := by
        rw [← hpe]; exact hlen _ (by simp)
      have hset := setSlice_append A (List.replicate m none)
        (f.ana_deriv (applyMapping mi vi) (applyMapping mf vf)
          (mf.toIdxList.indexOf var) cs) cs.length hout
      rw [hset, List.drop_replicate]
      have hrec := ih
        (A ++ f.ana_deriv (applyMapping mi vi) (applyMapping mf vf)
          (mf.toIdxList.indexOf var) cs)
        (m - cs.length) (fun q hq => hlen q (by simp [hq])) (by omega)
      rw [List.length_append, hout] at hrec
      rw [List.append_assoc] at hrec ⊢
      rw [hrec]
      simp [hpe, List.append_assoc, Nat.sub_sub]
    · rw [if_neg (fun hand => hc ⟨by omega, hand.2⟩)]
      have hpe : anaPiece vi vf var (f, mi, mf, cs) =
          List.replicate cs.length none := by
        rw [anaPiece, if_neg hc]
      have hsplit : A ++ List.replicate m none =
          (A ++ List.replicate cs.length none) ++
            List.replicate (m - cs.length) none := by
        rw [List.append_assoc, ← List.replicate_add,
          Nat.add_sub_cancel' (show cs.length ≤ m by omega)]
      rw [hsplit]
      have hrec := ih (A ++ List.replicate cs.length none) (m - cs.length)
        (fun q hq => hlen q (by simp [hq])) (by omega)
      rw [List.length_append, List.length_replicate] at hrec
      rw [hrec]
      simp [hpe, List.append_assoc, Nat.sub_sub]

/-! ## Bucket bookkeeping for `ana_deriv` -/

theorem cmpntsLoop_cons_none (s : Nat) (rest : List Nat) (i0 : Nat) :
    cmpntsLoop (s :: rest) i0 none =
      (List.range' i0 s).map Int.ofNat :: cmpntsLoop rest (i0 + s) none := rfl

theorem cmpntsLoop_cons_some (s : Nat) (rest : List Nat) (i0 : Nat) (cs : List Int) :
    cmpntsLoop (s :: rest) i0 (some cs) =
      cs.filter (fun c => decide ((i0 : Int) ≤ c ∧ c < (i0 : Int) + (s : Int)))
        :: cmpntsLoop rest (i0 + s) (some cs) := rfl

theorem cmpntsLoop_cons (s : Nat) (rest : List Nat) (i0 : Nat)
    (comps : Option (List Int)) :
    cmpntsLoop (s :: rest) i0 comps =
      (match comps with
       | none => (List.range' i0 s).map Int.ofNat
       | some cs =>
         cs.filter (fun c => decide ((i0 : Int) ≤ c ∧ c < (i0 : Int) + (s : Int))))
      :: cmpntsLoop rest (i0 + s) comps := by
  cases comps <;> rfl

theorem cmpntsLoop_length (comps : Option (List Int)) :
    ∀ (sizes : List Nat) (i0 : Nat), (cmpntsLoop sizes i0 comps).length = sizes.length := by
  intro sizes
  induction sizes with
  | nil => intro i0; rfl
  | cons s rest ih => intro i0; rw [cmpntsLoop_cons]; simp [ih]

theorem cmpntsLoop_none_lengths :
    ∀ (sizes : List Nat) (i0 : Nat),
      (cmpntsLoop sizes i0 none).map List.length = sizes := by
  intro sizes
  induction sizes with
  | nil => intro i0; rfl
  | cons s rest ih =>
    intro i0
    rw [cmpntsLoop_cons_none, List.map_cons, ih]
    congr 1
    rw [List.length_map, List.length_range']

theorem cmpntsLoop_append (comps : Option (List Int)) :
    ∀ (s1 s2 : List Nat) (i0 : Nat),
      cmpntsLoop (s1 ++ s2) i0 comps =
        cmpntsLoop s1 i0 comps ++ cmpntsLoop s2 (i0 + s1.sum) comps := by
  intro s1
  induction s1 with
  | nil => intro s2 i0; simp [cmpntsLoop]
  | cons s rest ih =>
    intro s2 i0
    rw [List.cons_append, cmpntsLoop_cons, ih]
    conv_rhs => rw [cmpntsLoop_cons]
    simp only [List.cons_append, List.sum_cons, Nat.add_assoc]

theorem countP_add_le (p q r : Int → Bool)
    (hpq : ∀ x, p x = true → q x = true → False)
    (hpr : ∀ x, p x = true → r x = true)
    (hqr : ∀ x, q x = true → r x = true) :
    ∀ cs : List Int, cs.countP p + cs.countP q ≤ cs.countP r := by
  intro cs
  induction cs with
  | nil => simp
  | cons x xs ih =>
    simp only [List.countP_cons]
    by_cases hp : p x = true
    · have hq : ¬ q x = true := fun hq => hpq x hp hq
      have hr := hpr x hp
      simp [hp, hq, hr]
      omega
    · by_cases hq : q x = true
      · have hr := hqr x hq
        simp [hp, hq, hr]
        omega
      · simp [hp, hq]
        have : (if r x = true then 1 else 0) + xs.countP r ≥ xs.countP r := by
          split <;> omega
        split <;> omega

theorem cmpntsLoop_some_sum_le (cs : List Int) :
    ∀ (sizes : List Nat) (i0 : Nat),
      ((cmpntsLoop sizes i0 (some cs)).map List.length).sum ≤
        cs.countP (fun c => decide ((i0 : Int) ≤ c)) := by
  intro sizes
  induction sizes with
  | nil => intro i0; simp [cmpntsLoop]
  | cons s rest ih =>
    intro i0
    rw [cmpntsLoop]
    simp only [List.map_cons, List.sum_cons]
    rw [← List.countP_eq_length_filter]
    have hrest := ih (i0 + s)
    refine le_trans (Nat.add_le_add_left hrest _) ?_
    refine countP_add_le _ _ _ ?_ ?_ ?_ cs
    · intro x hx hy
      simp at hx hy
      omega
    · intro x hx
      simp at hx ⊢
      omega
    · intro x hx
      simp at hx ⊢
      omega

theorem cmpntsLoop_some_sum_le_length (cs : List Int) (sizes : List Nat) :
    ((cmpntsLoop sizes 0 (some cs)).map List.length).sum ≤ cs.length :=
  le_trans (cmpntsLoop_some_sum_le cs sizes 0) (List.countP_le_length _)

/-! ## Registry membership and mapping application -/

theorem applyMapping_explicit [Inhabited α] (l : List Nat) (v : List α) :
    applyMapping (.explicit l) v = l.map (fun i => v.getD i default) := rfl

theorem mem_vnamesi_of_mem {fl : OptFunctionList} {f : OptFunction}
    (hf : f ∈ fl.functions) {v : String} (hv : v ∈ f.var_names_int) :
    v ∈ fl.vnamesi := by
  rw [OptFunctionList.vnamesi, mem_dedupFirst]
  exact List.mem_flatten.mpr
    ⟨f.var_names_int, List.mem_map_of_mem _ hf, hv⟩

theorem mem_vnamesf_of_mem {fl : OptFunctionList} {f : OptFunction}
    (hf : f ∈ fl.functions) {v : String} (hv : v ∈ f.var_names_float) :
    v ∈ fl.vnamesf := by
  rw [OptFunctionList.vnamesf, mem_dedupFirst]
  exact List.mem_flatten.mpr
    ⟨f.var_names_float, List.mem_map_of_mem _ hf, hv⟩

theorem getD_map_at {β : Type} (l : List α) (g : α → β) (k : Nat)
    (hk : k < l.length) (d : β) (d' : α) :
    (l.map g).getD k d = g (l.getD k d') := by
  have hk2 : k < (l.map g).length := by rw [List.length_map]; exact hk
  rw [List.getD_eq_get?, List.get?_eq_get hk2, List.getD_eq_get?,
    List.get?_eq_get hk]
  simp [List.get_eq_getElem, List.getElem_map]

theorem getD_mem (l : List α) (k : Nat) (hk : k < l.length) (d : α) :
    l.getD k d ∈ l := by
  rw [List.getD_eq_get?, List.get?_eq_get hk]
  exact List.get_mem ..

/-- Applying the mapping `getv vnames fvnames` to the vector of values of
the registry `vnames` under an assignment `σ` recovers the values of
`fvnames` in declared order, provided every declared name occurs in the
registry. -/
theorem applyMapping_getv (σ : String → α) [Inhabited α]
    (vnames fvnames : List String) (hsub : ∀ v ∈ fvnames, v ∈ vnames) :
    applyMapping (getv vnames fvnames) (vnames.map σ) = fvnames.map σ := by
  rw [getv_eq_explicit, applyMapping_explicit, List.map_map]
  refine List.map_congr_left ?_
  intro w hw
  have hmem : w ∈ vnames := hsub w hw
  have hlt : vnames.indexOf w < vnames.length := List.indexOf_lt_length.mpr hmem
  have hlt2 : vnames.indexOf w < (vnames.map σ).length := by
    rw [List.length_map]; exact hlt
  show (vnames.map σ).getD (vnames.indexOf w) default = σ w
  rw [List.getD_eq_get?, List.get?_eq_get hlt2]
  simp only [Option.getD_some, List.get_eq_getElem, List.getElem_map]
  congr 1
  have h := List.indexOf_get (a := w) (l := vnames) hlt
  rw [List.get_eq_getElem] at h
  exact h


/-! ## Claim C2 -/

/-- C2: the spec claims positions forming a strictly increasing consecutive
run are collapsed to a contiguous range.  In the code the guard
`list(range(l[0], l[-1])) == l` is unsatisfiable, so the stored mapping is
never the range form: a consecutive run such as positions `[0, 1]` of
`["x", "y"]` is kept as the explicit list; a non-run such as `[0, 2]` is
kept as the explicit list (as specified); no declared variables give the
empty mapping (as specified). -/
theorem C2_index_mapping_always_explicit :
    (∀ vnames fvnames : List String, (getv vnames fvnames).isRange = false) ∧
    getv ["x", "y"] ["x", "y"] = VarMapping.explicit [0, 1] ∧
    getv ["x", "y", "z"] ["x", "z"] = VarMapping.explicit [0, 2] ∧
    getv ["x"] [] = VarMapping.explicit [] :=
  ⟨getv_isRange_false, by decide, by decide, rfl⟩

/-! ## Claim C3 -/

/-- C3: applying the `i`-th sub-function's stored index mapping to a
registry-ordered value vector (position `k` holding the value of the
`k`-th registry name under an assignment `σ`) yields exactly that
sub-function's local variable vector in its own declared order, in both
the integer and the float namespace. -/
theorem C3_mapping_recovers_local_vector (fl : OptFunctionList) (i : Nat)
    (hi : i < fl.n_functions) (σi : String → Int) (σf : String → Rat) :
    applyMapping (fl.func_vars_int.getD i (.explicit [])) (fl.vnamesi.map σi)
        = (fl.functions.getD i default).var_names_int.map σi ∧
    applyMapping (fl.func_vars_float.getD i (.explicit [])) (fl.vnamesf.map σf)
        = (fl.functions.getD i default).var_names_float.map σf := by
  have hflen : i < fl.functions.length := hi
  have hfm : fl.functions.getD i default ∈ fl.functions :=
    getD_mem _ _ hflen _
  constructor
  · rw [OptFunctionList.func_vars_int, getD_map_at _ _ _ hflen _ default]
    exact applyMapping_getv σi _ _ (fun v hv => mem_vnamesi_of_mem hfm hv)
  · rw [OptFunctionList.func_vars_float, getD_map_at _ _ _ hflen _ default]
    exact applyMapping_getv σf _ _ (fun v hv => mem_vnamesf_of_mem hfm hv)


/-- Witness for C3 at the worked example: registry floats are
`[x, z, y]` (registration order A then B), the registry-ordered global
vector is `[10, 30, 20]`, A's local slice is `[10, 30]` and B's is `[20]`. -/
theorem C3_witness :
    (0 < exFL.n_functions ∧ 1 < exFL.n_functions) ∧
    applyMapping (exFL.func_vars_float.getD 0 (.explicit []))
        (exFL.vnamesf.map exSigma)
      = (exFL.functions.getD 0 default).var_names_float.map exSigma ∧
    applyMapping (exFL.func_vars_float.getD 1 (.explicit []))
        (exFL.vnamesf.map exSigma)
      = (exFL.functions.getD 1 default).var_names_float.map exSigma ∧
    exFL.vnamesf.map exSigma = [10, 30, 20] ∧
    (exFL.functions.getD 0 default).var_names_float.map exSigma = [10, 30] ∧
    (exFL.functions.getD 1 default).var_names_float.map exSigma = [20] :=
  ⟨⟨by decide, by decide⟩,
   (C3_mapping_recovers_local_vector exFL 0 (by decide) (fun _ => 0) exSigma).2,
   (C3_mapping_recovers_local_vector exFL 1 (by decide) (fun _ => 0) exSigma).2,
   by decide, by decide, by decide⟩

/-! ## Claim C6 -/

/-- C6: `append` rejects a call after initialization with an error naming
the composer and the rejected sub-function, and rejects a problem
mismatch with an error naming both and the two problems; in either case
no successor state is produced (the embedded `raise` happens before the
two list extensions). -/
theorem C6_append_rejects (fl : OptFunctionList) (f : OptFunction) :
    (fl.initialized = true →
      fl.append f = .error (.afterInit fl.name f.name)) ∧
    (fl.initialized = false → f.problem ≠ fl.problem →
      fl.append f =
        .error (.problemMismatch fl.name f.name fl.problem f.problem)) := by
  constructor
  · intro h
    rw [OptFunctionList.append, if_pos h]
  · intro h hp
    rw [OptFunctionList.append, if_neg (by simp [h]), if_pos hp]



/-- Witness for C6: the initialized example composer rejects a further
append, and the fresh composer rejects a sub-function of another problem. -/
theorem C6_witness :
    (exFL.initialized = true ∧
      exFL.append exB = .error (.afterInit exFL.name exB.name)) ∧
    (exFLraw.initialized = false ∧ exFbad.problem ≠ exFLraw.problem ∧
      exFLraw.append exFbad =
        .error (.problemMismatch exFLraw.name exFbad.name exFLraw.problem
          exFbad.problem)) :=
  ⟨⟨rfl, (C6_append_rejects exFL exB).1 rfl⟩,
   ⟨rfl, by decide, (C6_append_rejects exFLraw exFbad).2 rfl (by decide)⟩⟩

/-! ## Claim C8 -/

/-- C8: each registry sequence is an order-preserving subsequence of the
concatenation of the sub-functions' variable-name lists in registration
order, contains no duplicates, has exactly the names of that
concatenation, and every name declared by some sub-function occurs in it
exactly once. -/
theorem C8_registry_dedup (fl : OptFunctionList) :
    (fl.vnamesi.Sublist (fl.functions.map (fun f => f.var_names_int)).flatten ∧
      fl.vnamesi.Nodup ∧
      (∀ v, v ∈ fl.vnamesi ↔
        v ∈ (fl.functions.map (fun f => f.var_names_int)).flatten) ∧
      ∀ f ∈ fl.functions, ∀ v ∈ f.var_names_int, fl.vnamesi.count v = 1) ∧
    (fl.vnamesf.Sublist (fl.functions.map (fun f => f.var_names_float)).flatten ∧
      fl.vnamesf.Nodup ∧
      (∀ v, v ∈ fl.vnamesf ↔
        v ∈ (fl.functions.map (fun f => f.var_names_float)).flatten) ∧
      ∀ f ∈ fl.functions, ∀ v ∈ f.var_names_float, fl.vnamesf.count v = 1) := by
  refine ⟨⟨dedupFirst_sublist _, dedupFirst_nodup _,
           fun v => mem_dedupFirst, ?_⟩,
          ⟨dedupFirst_sublist _, dedupFirst_nodup _,
           fun v => mem_dedupFirst, ?_⟩⟩
  · intro f hf v hv
    exact List.count_eq_one_of_mem (dedupFirst_nodup _)
      (mem_vnamesi_of_mem hf hv)
  · intro f hf v hv
    exact List.count_eq_one_of_mem (dedupFirst_nodup _)
      (mem_vnamesf_of_mem hf hv)

/-- Witness for C8 at the worked example: the float registry is the
de-duplicated concatenation `[x, z, y]` and each declared name counts
once. -/
theorem C8_witness :
    exFL.vnamesf = ["x", "z", "y"] ∧
    (exA ∈ exFL.functions ∧ "x" ∈ exA.var_names_float) ∧
    exFL.vnamesf.count "x" = 1 :=
  ⟨by decide,
   ⟨by simp [exFL], by decide⟩,
   (C8_registry_dedup exFL).2.2.2.2 exA (by simp [exFL]) "x" (by decide)⟩

/-! ## Claim C9 -/

/-- C9: the ledger has one entry per sub-function, in registration order,
each equal to that sub-function's declared component count, and its sum
is the composer's total component count. -/
theorem C9_ledger (fl : OptFunctionList) :
    fl.sizes.length = fl.n_functions ∧
    (∀ i, i < fl.n_functions →
      fl.sizes.getD i 0 = (fl.functions.getD i default).n_components) ∧
    fl.sizes.sum = fl.n_components := by
  refine ⟨by rw [OptFunctionList.sizes, List.length_map]; rfl, ?_, rfl⟩
  intro i hi
  rw [OptFunctionList.sizes, getD_map_at _ _ _ hi _ default]

/-- Witness for C9 at the worked example: ledger `[1, 2]`, total `3`. -/
theorem C9_witness :
    1 < exFL.n_functions ∧
    exFL.sizes.getD 1 0 = (exFL.functions.getD 1 default).n_components ∧
    exFL.sizes.sum = exFL.n_components ∧
    exFL.sizes = [1, 2] ∧ exFL.n_components = 3 :=
  ⟨by decide, (C9_ledger exFL).2.1 1 (by decide), (C9_ledger exFL).2.2,
   by decide, by decide⟩

/-! ## Claim C4 -/

/-- C4: when every sub-function returns a vector of its declared component
length, `calc_individual` is the concatenation, in registration order, of
the sub-functions' independently-invoked outputs on their own variable
slices, and the result has length `n_components()`. -/
theorem C4_calc_individual_concat (fl : OptFunctionList)
    (vi : List Int) (vf : List Rat)
    (hlen : ∀ f ∈ fl.functions,
      (f.calc_individual (applyMapping (getv fl.vnamesi f.var_names_int) vi)
        (applyMapping (getv fl.vnamesf f.var_names_float) vf)).length
        = f.n_components) :
    fl.calc_individual vi vf =
      (fl.functions.map (fun f =>
        f.calc_individual (applyMapping (getv fl.vnamesi f.var_names_int) vi)
          (applyMapping (getv fl.vnamesf f.var_names_float) vf))).flatten ∧
    (fl.calc_individual vi vf).length = fl.n_components := by
  have hlenq : ∀ q ∈ fl.quads, (calcOut vi vf q).length = q.2.2.2 := by
    intro q hq2
    rw [OptFunctionList.quads] at hq2
    obtain ⟨f, hf, rfl⟩ := List.mem_map.mp hq2
    exact hlen f hf
  have hs : (fl.quads.map (fun q => q.2.2.2)).sum = fl.n_components := by
    rw [OptFunctionList.quads, List.map_map]; rfl
  have hZ : (List.replicate fl.n_components (none : Option Rat)).length =
      (fl.quads.map (fun q => q.2.2.2)).sum := by
    rw [List.length_replicate, hs]
  have hmain : fl.calc_individual vi vf =
      (fl.functions.map (fun f =>
        f.calc_individual (applyMapping (getv fl.vnamesi f.var_names_int) vi)
          (applyMapping (getv fl.vnamesf f.var_names_float) vf))).flatten := by
    show calcIndLoop fl.quads 0 vi vf (List.replicate fl.n_components none) = _
    have h := calcIndLoop_eq vi vf fl.quads []
      (List.replicate fl.n_components none) hlenq hZ
    simp only [List.length_nil, List.nil_append] at h
    rw [h, OptFunctionList.quads, List.map_map]
    rfl
  refine ⟨hmain, ?_⟩
  rw [hmain, List.length_flatten, List.map_map]
  have hcg : fl.functions.map (List.length ∘ fun f =>
      f.calc_individual (applyMapping (getv fl.vnamesi f.var_names_int) vi)
        (applyMapping (getv fl.vnamesf f.var_names_float) vf)) =
      fl.functions.map (fun f => f.n_components) :=
    List.map_congr_left (fun f hf => hlen f hf)
  rw [hcg]
  rfl

/-- Witness for C4 at the worked example: with registry-ordered floats
`[10, 30, 20]` the composite result is A's output `[30]` followed by B's
output `[20, 20]`. -/
theorem C4_witness :
    (∀ f ∈ exFL.functions,
      (f.calc_individual (applyMapping (getv exFL.vnamesi f.var_names_int) [])
        (applyMapping (getv exFL.vnamesf f.var_names_float) [10, 30, 20])).length
        = f.n_components) ∧
    exFL.calc_individual [] [10, 30, 20] =
      (exFL.functions.map (fun f =>
        f.calc_individual (applyMapping (getv exFL.vnamesi f.var_names_int) [])
          (applyMapping (getv exFL.vnamesf f.var_names_float) [10, 30, 20]))).flatten ∧
    exFL.calc_individual [] [10, 30, 20] = [some 30, some 20, some 20] :=
  ⟨by decide,
   (C4_calc_individual_concat exFL [] [10, 30, 20] (by decide)).1,
   by decide⟩

/-! ## Claim C5 -/

/-- C5: splitting a flat vector of length `n_components()` yields pieces
whose lengths are exactly the ledger and whose concatenation reproduces
the input; for a batch, the same holds row by row along the component
axis. -/
theorem C5_split_roundtrip {α : Type} (fl : OptFunctionList) :
    (∀ d : List α, d.length = fl.n_components →
      (fl.split_individual d).flatten = d ∧
      (fl.split_individual d).map List.length = fl.sizes) ∧
    (∀ data : List (List α), (∀ row ∈ data, row.length = fl.n_components) →
      ∀ k, k < data.length →
        ((fl.split_population data).map (fun p => p.getD k [])).flatten =
          data.getD k []) := by
  have hnc : fl.n_components = fl.sizes.sum := rfl
  constructor
  · intro d hd
    rw [hnc] at hd
    constructor
    · rw [OptFunctionList.split_individual, splitLoop_flatten,
        List.drop_zero, ← hd]
      exact List.take_length d
    · exact splitLoop_lengths d fl.sizes 0 (by omega)
  · intro data hrows k hk
    rw [OptFunctionList.split_population, splitPopLoop_row data k hk,
      splitLoop_flatten, List.drop_zero]
    have hrow : (data.getD k []).length = fl.sizes.sum := by
      rw [← hnc]
      exact hrows _ (getD_mem data k hk [])
    rw [← hrow]
    exact List.take_length _

/-- Witness for C5 at the worked example: `[1, 2, 3]` splits into
`[[1], [2, 3]]` and joins back; a two-row batch splits and rejoins row 0. -/
theorem C5_witness :
    (([1, 2, 3] : List Rat).length = exFL.n_components ∧
      (exFL.split_individual ([1, 2, 3] : List Rat)).flatten = [1, 2, 3] ∧
      (exFL.split_individual ([1, 2, 3] : List Rat)).map List.length = exFL.sizes) ∧
    ((∀ row ∈ ([[1, 2, 3], [4, 5, 6]] : List (List Rat)),
        row.length = exFL.n_components) ∧
      ((exFL.split_population ([[1, 2, 3], [4, 5, 6]] : List (List Rat))).map
        (fun p => p.getD 0 [])).flatten = [1, 2, 3]) :=
  ⟨⟨by decide,
    ((C5_split_roundtrip exFL).1 [1, 2, 3] (by decide)).1,
    ((C5_split_roundtrip exFL).1 [1, 2, 3] (by decide)).2⟩,
   ⟨by decide,
    (C5_split_roundtrip exFL).2 [[1, 2, 3], [4, 5, 6]] (by decide) 0
      (by decide)⟩⟩

/-! ## Structure of `anaQuads` -/

theorem exists_of_mem_zipWith {α β γ : Type} {g : α → β → γ} :
    ∀ {l1 : List α} {l2 : List β} {c : γ}, c ∈ List.zipWith g l1 l2 →
      ∃ a ∈ l1, ∃ b ∈ l2, c = g a b := by
  intro l1
  induction l1 with
  | nil => intro l2 c h; simp at h
  | cons a as ih =>
    intro l2 c h
    cases l2 with
    | nil => simp at h
    | cons b bs =>
      rw [List.zipWith_cons_cons] at h
      rcases List.mem_cons.mp h with h1 | h2
      · exact ⟨a, List.mem_cons_self .., b, List.mem_cons_self .., h1⟩
      · obtain ⟨x, hx, y, hy, rfl⟩ := ih h2
        exact ⟨x, List.mem_cons_of_mem _ hx, y, List.mem_cons_of_mem _ hy, rfl⟩

theorem zipWith_quad_map_bucket (mi mf : OptFunction → VarMapping) :
    ∀ (fs : List OptFunction) (bks : List (List Int)),
      fs.length = bks.length →
      (List.zipWith (fun f cs => (f, mi f, mf f, cs)) fs bks).map
        (fun q => q.2.2.2) = bks := by
  intro fs
  induction fs with
  | nil =>
    intro bks h
    cases bks with
    | nil => rfl
    | cons b bs => simp at h
  | cons f fs ih =>
    intro bks h
    cases bks with
    | nil => simp at h
    | cons b bs =>
      rw [List.zipWith_cons_cons, List.map_cons, ih bs (by simpa using h)]

theorem anaQuads_buckets (fl : OptFunctionList) (comps : Option (List Int)) :
    (fl.anaQuads comps).map (fun q => q.2.2.2) =
      cmpntsLoop fl.sizes 0 comps := by
  rw [OptFunctionList.anaQuads]
  refine zipWith_quad_map_bucket _ _ _ _ ?_
  rw [cmpntsLoop_length, OptFunctionList.sizes, List.length_map]

theorem mem_anaQuads {fl : OptFunctionList} {comps : Option (List Int)}
    {q : OptFunction × VarMapping × VarMapping × List Int}
    (hq : q ∈ fl.anaQuads comps) :
    ∃ f ∈ fl.functions, ∃ cs, cs ∈ cmpntsLoop fl.sizes 0 comps ∧
      q = (f, getv fl.vnamesi f.var_names_int,
        getv fl.vnamesf f.var_names_float, cs) := by
  rw [OptFunctionList.anaQuads] at hq
  obtain ⟨f, hf, cs, hcs, rfl⟩ := exists_of_mem_zipWith hq
  exact ⟨f, hf, cs, hcs, rfl⟩

theorem cmpntsLoop_some_nil_buckets :
    ∀ (sizes : List Nat) (i0 : Nat) (cs : List Int),
      cs ∈ cmpntsLoop sizes i0 (some []) → cs = [] := by
  intro sizes
  induction sizes with
  | nil => intro i0 cs h; simp [cmpntsLoop] at h
  | cons s rest ih =>
    intro i0 cs h
    rw [cmpntsLoop_cons_some] at h
    rcases List.mem_cons.mp h with h1 | h2
    · simpa using h1
    · exact ih (i0 + s) cs h2

theorem anaLoop_empty_buckets (vi : List Int) (vf : List Rat) (var : Nat) :
    ∀ (quads : List (OptFunction × VarMapping × VarMapping × List Int))
      (c0 : Nat) (buf : List (Option Rat)),
      (∀ q ∈ quads, q.2.2.2 = ([] : List Int)) →
      anaLoop quads c0 vi vf var buf = buf := by
  intro quads
  induction quads with
  | nil => intro c0 buf _; rfl
  | cons q rest ih =>
    obtain ⟨f, mi, mf, cs⟩ := q
    intro c0 buf h
    have hcs : cs = [] := h (f, mi, mf, cs) (List.mem_cons_self ..)
    subst hcs
    rw [anaLoop, if_neg (fun hand => by simp at hand)]
    exact ih _ _ (fun q hq => h q (List.mem_cons_of_mem _ hq))

theorem setSlice_replicate (n c0 len : Nat) (out : List (Option Rat))
    (hout : out.length = len) (hle : c0 + len ≤ n) :
    setSlice (List.replicate n none) c0 len out =
      List.replicate c0 none ++ out ++ List.replicate (n - c0 - len) none := by
  have hsplit : List.replicate n (none : Option Rat) =
      List.replicate c0 none ++ List.replicate (n - c0) none := by
    rw [← List.replicate_add, Nat.add_sub_cancel' (by omega)]
  have h := setSlice_append (List.replicate c0 (none : Option Rat))
    (List.replicate (n - c0) none) out len hout
  rw [List.length_replicate] at h
  rw [hsplit, h, List.drop_replicate]

/-! ## Claim C7 -/

/-- C7: (i) a float variable whose registry position is in no
sub-function's float index mapping yields an all-sentinel output of the
requested size; (ii) an empty components list yields an empty output;
(iii) with `components=None`, when exactly one sub-function B owns `var`
(its neighbours in registration order, `pre` and `post`, do not), the
entries owned by the others stay at the sentinel while B's owned entries
are exactly B's own delegated derivative result. -/
theorem C7_ana_deriv_sentinel_routing (fl : OptFunctionList) (vi : List Int)
    (vf : List Rat) (var : Nat) :
    (∀ comps : Option (List Int),
      (∀ f ∈ fl.functions,
        var ∉ (getv fl.vnamesf f.var_names_float).toIdxList) →
      fl.ana_deriv vi vf var comps =
        List.replicate
          (match comps with
           | some cs => cs.length
           | none => fl.n_components) none) ∧
    fl.ana_deriv vi vf var (some []) = [] ∧
    (∀ (pre post : List OptFunction) (B : OptFunction),
      fl.functions = pre ++ B :: post →
      (∀ f ∈ pre, var ∉ (getv fl.vnamesf f.var_names_float).toIdxList) →
      (∀ f ∈ post, var ∉ (getv fl.vnamesf f.var_names_float).toIdxList) →
      var ∈ (getv fl.vnamesf B.var_names_float).toIdxList →
      0 < B.n_components →
      (B.ana_deriv (applyMapping (getv fl.vnamesi B.var_names_int) vi)
        (applyMapping (getv fl.vnamesf B.var_names_float) vf)
        ((getv fl.vnamesf B.var_names_float).toIdxList.indexOf var)
        ((List.range' (pre.map (fun f => f.n_components)).sum
          B.n_components).map Int.ofNat)).length = B.n_components →
      fl.ana_deriv vi vf var none =
        List.replicate (pre.map (fun f => f.n_components)).sum none ++
        B.ana_deriv (applyMapping (getv fl.vnamesi B.var_names_int) vi)
          (applyMapping (getv fl.vnamesf B.var_names_float) vf)
          ((getv fl.vnamesf B.var_names_float).toIdxList.indexOf var)
          ((List.range' (pre.map (fun f => f.n_components)).sum
            B.n_components).map Int.ofNat) ++
        List.replicate (post.map (fun f => f.n_components)).sum none) := by
  refine ⟨?_, ?_, ?_⟩
  · intro comps hvar
    show anaLoop (fl.anaQuads comps) 0 vi vf var _ = _
    refine anaLoop_no_write vi vf var _ 0 _ ?_
    intro q hq
    obtain ⟨f, hf, cs, _, rfl⟩ := mem_anaQuads hq
    exact hvar f hf
  · show anaLoop (fl.anaQuads (some [])) 0 vi vf var _ = _
    rw [anaLoop_empty_buckets vi vf var _ 0 _ ?_]
    · rfl
    · intro q hq
      obtain ⟨f, _, cs, hcs, rfl⟩ := mem_anaQuads hq
      exact cmpntsLoop_some_nil_buckets fl.sizes 0 cs hcs
  · intro pre post B hsplit hpre hpost hvar hB hBout
    have h1 : fl.sizes = pre.map (fun f => f.n_components) ++
        B.n_components :: post.map (fun f => f.n_components) := by
      rw [OptFunctionList.sizes, hsplit, List.map_append, List.map_cons]
    have h2 : cmpntsLoop fl.sizes 0 none =
        cmpntsLoop (pre.map (fun f => f.n_components)) 0 none ++
        ((List.range' (pre.map (fun f => f.n_components)).sum
            B.n_components).map Int.ofNat ::
          cmpntsLoop (post.map (fun f => f.n_components))
            ((pre.map (fun f => f.n_components)).sum + B.n_components) none) := by
      rw [h1, cmpntsLoop_append, cmpntsLoop_cons_none]
      simp only [Nat.zero_add]
    have hqd : fl.anaQuads none =
        List.zipWith (fun f cs => (f, getv fl.vnamesi f.var_names_int,
            getv fl.vnamesf f.var_names_float, cs)) pre
          (cmpntsLoop (pre.map (fun f => f.n_components)) 0 none) ++
        ((B, getv fl.vnamesi B.var_names_int,
            getv fl.vnamesf B.var_names_float,
            (List.range' (pre.map (fun f => f.n_components)).sum
              B.n_components).map Int.ofNat) ::
          List.zipWith (fun f cs => (f, getv fl.vnamesi f.var_names_int,
              getv fl.vnamesf f.var_names_float, cs)) post
            (cmpntsLoop (post.map (fun f => f.n_components))
              ((pre.map (fun f => f.n_components)).sum + B.n_components) none)) := by
      rw [OptFunctionList.anaQuads, hsplit, h2, List.zipWith_append,
        List.zipWith_cons_cons]
      rw [cmpntsLoop_length, List.length_map]
    have hpreStruct := zipWith_quad_map_bucket
      (fun f => getv fl.vnamesi f.var_names_int)
      (fun f => getv fl.vnamesf f.var_names_float) pre
      (cmpntsLoop (pre.map (fun f => f.n_components)) 0 none)
      (by rw [cmpntsLoop_length, List.length_map])
    have hpreSum : ((List.zipWith (fun f cs => (f, getv fl.vnamesi f.var_names_int,
          getv fl.vnamesf f.var_names_float, cs)) pre
          (cmpntsLoop (pre.map (fun f => f.n_components)) 0 none)).map
        (fun q => q.2.2.2.length)).sum =
        (pre.map (fun f => f.n_components)).sum := by
      have : (List.zipWith (fun f cs => (f, getv fl.vnamesi f.var_names_int,
            getv fl.vnamesf f.var_names_float, cs)) pre
            (cmpntsLoop (pre.map (fun f => f.n_components)) 0 none)).map
          (fun q => q.2.2.2.length) =
          ((List.zipWith (fun f cs => (f, getv fl.vnamesi f.var_names_int,
            getv fl.vnamesf f.var_names_float, cs)) pre
            (cmpntsLoop (pre.map (fun f => f.n_components)) 0 none)).map
          (fun q => q.2.2.2)).map List.length := (List.map_map _ _ _).symm
      rw [this, hpreStruct, cmpntsLoop_none_lengths]
    have hn : fl.n_components = (pre.map (fun f => f.n_components)).sum +
        (B.n_components + (post.map (fun f => f.n_components)).sum) := by
      rw [OptFunctionList.n_components, h1, List.sum_append, List.sum_cons]
    show anaLoop (fl.anaQuads none) 0 vi vf var
      (List.replicate fl.n_components none) = _
    rw [hqd, anaLoop_append]
    rw [anaLoop_no_write vi vf var _ 0 _ ?hpre2]
    case hpre2 =>
      intro q hq
      obtain ⟨f, hf, cs, _, rfl⟩ := exists_of_mem_zipWith hq
      exact hpre f hf
    rw [hpreSum, Nat.zero_add, anaLoop]
    have hbl : ((List.range' (pre.map (fun f => f.n_components)).sum
        B.n_components).map Int.ofNat).length = B.n_components := by
      rw [List.length_map, List.length_range']
    rw [if_pos ⟨by omega, hvar⟩]
    rw [hbl, setSlice_replicate fl.n_components
      (pre.map (fun f => f.n_components)).sum B.n_components _ hBout (by omega)]
    rw [anaLoop_no_write vi vf var _ _ _ ?hpost2]
    case hpost2 =>
      intro q hq
      obtain ⟨f, hf, cs, _, rfl⟩ := exists_of_mem_zipWith hq
      exact hpost f hf
    congr 2
    omega

/-- Witness for C7 at the worked example: variable 9 (owned by nobody)
gives all-sentinel output, the empty request gives the empty output, and
variable 2 (float `y`, owned only by B) routes to B alone: output
`[none]` for A's component and B's echoed derivative for B's two. -/
theorem C7_witness :
    ((∀ f ∈ exFL.functions,
        (9 : Nat) ∉ (getv exFL.vnamesf f.var_names_float).toIdxList) ∧
      exFL.ana_deriv [] [10, 30, 20] 9 none = List.replicate 3 none) ∧
    exFL.ana_deriv [] [10, 30, 20] 9 (some []) = [] ∧
    (exFL.functions = [exA] ++ exB :: [] ∧
      exFL.ana_deriv [] [10, 30, 20] 2 none =
        List.replicate ([exA].map (fun f => f.n_components)).sum none ++
        exB.ana_deriv (applyMapping (getv exFL.vnamesi exB.var_names_int) [])
          (applyMapping (getv exFL.vnamesf exB.var_names_float) [10, 30, 20])
          ((getv exFL.vnamesf exB.var_names_float).toIdxList.indexOf 2)
          ((List.range' ([exA].map (fun f => f.n_components)).sum
            exB.n_components).map Int.ofNat) ++
        List.replicate (([] : List OptFunction).map
          (fun f => f.n_components)).sum none ∧
      exFL.ana_deriv [] [10, 30, 20] 2 none = [none, some 1, some 2]) :=
  ⟨⟨by decide,
    (C7_ana_deriv_sentinel_routing exFL [] [10, 30, 20] 9).1 none (by decide)⟩,
   (C7_ana_deriv_sentinel_routing exFL [] [10, 30, 20] 9).2.1,
   ⟨rfl,
    (C7_ana_deriv_sentinel_routing exFL [] [10, 30, 20] 2).2.2 [exA] [] exB
      rfl (by decide) (by decide) (by decide) (by decide) (by decide),
    by decide⟩⟩

/-! ## Claim C10 -/

/-- C10: with an explicit components list, `ana_deriv` returns a vector of
length `len(components)` whose entries are the per-sub-function pieces in
registration order (each piece either the delegated derivative on that
sub-function's bucket or its bucket's width of sentinels), followed by a
sentinel tail covering the requested indices that fell in no
sub-function's offset range; positions therefore do not correspond
index-for-index to the caller's listed order. -/
theorem C10_ana_deriv_explicit_components_layout (fl : OptFunctionList)
    (vi : List Int) (vf : List Rat) (var : Nat) (cs : List Int)
    (hlen : ∀ q ∈ fl.anaQuads (some cs),
      (anaPiece vi vf var q).length = q.2.2.2.length) :
    fl.ana_deriv vi vf var (some cs) =
      ((fl.anaQuads (some cs)).map (anaPiece vi vf var)).flatten ++
        List.replicate
          (cs.length -
            ((cmpntsLoop fl.sizes 0 (some cs)).map List.length).sum) none ∧
    (fl.ana_deriv vi vf var (some cs)).length = cs.length := by
  have hS : ((fl.anaQuads (some cs)).map (fun q => q.2.2.2.length)).sum =
      ((cmpntsLoop fl.sizes 0 (some cs)).map List.length).sum := by
    have h : (fl.anaQuads (some cs)).map (fun q => q.2.2.2.length) =
        ((fl.anaQuads (some cs)).map (fun q => q.2.2.2)).map List.length :=
      (List.map_map _ _ _).symm
    rw [h, anaQuads_buckets]
  have hle : ((cmpntsLoop fl.sizes 0 (some cs)).map List.length).sum ≤
      cs.length := cmpntsLoop_some_sum_le_length cs fl.sizes
  have hmain := anaLoop_eq vi vf var (fl.anaQuads (some cs)) [] cs.length
    hlen (by rw [hS]; exact hle)
  simp only [List.length_nil, List.nil_append] at hmain
  constructor
  · show anaLoop (fl.anaQuads (some cs)) 0 vi vf var
      (List.replicate cs.length none) = _
    rw [hmain, hS]
  · show (anaLoop (fl.anaQuads (some cs)) 0 vi vf var
      (List.replicate cs.length none)).length = _
    rw [hmain, List.length_append, List.length_flatten,
      List.length_replicate, List.map_map]
    have hcg : (fl.anaQuads (some cs)).map
        (List.length ∘ anaPiece vi vf var) =
        (fl.anaQuads (some cs)).map (fun q => q.2.2.2.length) :=
      List.map_congr_left (fun q hq => hlen q hq)
    rw [hcg, hS]
    omega

/-- Witness for C10 at the worked example: requesting components
`[2, 0, 7]` (not ascending, `7` out of range) for variable `y` returns a
length-3 vector laid out as A's bucket `[0]` (sentinel, A does not own
`y`) then B's bucket `[2]` (B's echoed derivative), with the unmatched
position left at the sentinel: `[none, some 2, none]` — not the caller's
listed order. -/
theorem C10_witness :
    (∀ q ∈ exFL.anaQuads (some [2, 0, 7]),
      (anaPiece [] [10, 30, 20] 2 q).length = q.2.2.2.length) ∧
    exFL.ana_deriv [] [10, 30, 20] 2 (some [2, 0, 7]) =
      ((exFL.anaQuads (some [2, 0, 7])).map
        (anaPiece [] [10, 30, 20] 2)).flatten ++
        List.replicate (([2, 0, 7] : List Int).length -
          ((cmpntsLoop exFL.sizes 0 (some [2, 0, 7])).map List.length).sum)
          none ∧
    (exFL.ana_deriv [] [10, 30, 20] 2 (some [2, 0, 7])).length = 3 ∧
    exFL.ana_deriv [] [10, 30, 20] 2 (some [2, 0, 7]) = [none, some 2, none] :=
  ⟨by decide,
   (C10_ana_deriv_explicit_components_layout exFL [] [10, 30, 20] 2 [2, 0, 7]
     (by decide)).1,
   (C10_ana_deriv_explicit_components_layout exFL [] [10, 30, 20] 2 [2, 0, 7]
     (by decide)).2,
   by decide⟩

/-! ## Claim C1 -/

/-- C1 (code divergence): with sub-function boundaries `[0,1), [1,3),
[3,5)` and `components=[2]`, only the second sub-function is invoked —
but the bucket passed to it is the untranslated global `[2]`, not the
local `[1]` the claim describes.  Every sub-function here echoes the
component indices it receives as its derivative values, so the output
exposes the delegated request: the code yields `[some 2]` where the
claimed local translation would yield `[some 1]`. -/
theorem C1_ana_deriv_passes_global_components :
    cmpntsLoop exFL3.sizes 0 (some [2]) = [[], [2], []] ∧
    exFL3.ana_deriv [] [] 0 (some [2]) = [some 2] :=
  ⟨by decide, by decide⟩

end Iwopy
